import Mathlib

/-!
Verification of the harmony-docs-static scraper core (`src/scraper.js`).

The JavaScript source is shallowly embedded: JS strings on which the code
performs character-level operations (pathnames, hrefs, file paths) are
modelled as `List Char`; opaque strings (titles, URL keys, origins) as
`String`; nullable values as `Option`; thrown exceptions as `Except`;
the `new URL` resolution of the browser and the page-fetch capability are
external collaborators and appear as function parameters.  Numbered
references are to lines of `src/scraper.js`.
-/

/-! ## Data model -/

/-- One flattened fetchable target `{url, title, pathname}` as pushed by
`flattenTree` (scraper.js:34-38) and stored in the checkpoint. -/
structure LinkRecord where
  url : String
  title : String
  pathname : Option String
deriving Repr

/-- One node of the reconstructed navigation hierarchy
`{title, url, pathname, children}` (scraper.js:394-399). -/
inductive NavNode : Type where
  | node (title : String) (url : Option String) (pathname : Option String)
      (children : List NavNode) : NavNode
deriving Repr

def NavNode.title : NavNode → String
  | .node t _ _ _ => t

def NavNode.url : NavNode → Option String
  | .node _ u _ _ => u

def NavNode.pathname : NavNode → Option String
  | .node _ _ p _ => p

def NavNode.children : NavNode → List NavNode
  | .node _ _ _ cs => cs

/-- One flat extracted row `{title, url, pathname, level, children: []}`
(scraper.js:335-341); `children` is always empty at this point and is
dropped when the tree node is built, so it is omitted here. -/
structure FlatRecord where
  title : String
  url : Option String
  pathname : Option String
  level : Nat
deriving Repr

/-! ## flattenTree (scraper.js:29-47)

`flattenTree` does a pre-order walk pushing `{url, title, pathname}` for
every node whose `url` is set, then recursing into `children`. -/

mutual
def flattenTree : NavNode → List LinkRecord
  | .node t u p cs =>
    (match u with
     | some x => [⟨x, t, p⟩]
     | none => []) ++ flattenForest cs
def flattenForest : List NavNode → List LinkRecord
  | [] => []
  | n :: ns => flattenTree n ++ flattenForest ns
end

/-! ## countLinks (scraper.js:439-447) -/

mutual
def countLinks : NavNode → Nat
  | .node _ u _ cs => (if u.isSome then 1 else 0) + countLinksForest cs
def countLinksForest : List NavNode → Nat
  | [] => 0
  | n :: ns => countLinks n + countLinksForest ns
end

/-! ## buildTree (scraper.js:386-420)

The source is imperative: it walks the records once, keeping a stack of
`{node, level}` pairs; for each record it pops every stack entry whose
level is `>=` the level of the record, then attaches the fresh node to
the `children` of the remaining stack top (or to the top-level `result`
when the
stack is empty), then pushes the fresh node.  The functional embedding
defers each attachment to the moment the owning entry is popped: while an
entry sits on the stack the entries below it cannot change, so the entry
directly below it at pop time is exactly the stack top at its arrival
time, and children accumulate in the same arrival order. -/

/-- A stack entry: the data of a node still open on the ancestor chain,
with the children attached to it so far and its level. -/
structure PNode where
  title : String
  url : Option String
  pathname : Option String
  children : List NavNode
  level : Nat
deriving Repr

def PNode.toNav (e : PNode) : NavNode := .node e.title e.url e.pathname e.children

/-- Finalize node `n` against the remaining popped entries `more` (top
first): `n` becomes the last child of the next popped entry; the last
popped node becomes the last child of the head of `rest` (the surviving
stack), or a new top-level entry of `result` when `rest` is empty. -/
def attachChain (n : NavNode) : List PNode → List NavNode → List PNode →
    List NavNode × List PNode
  | [], result, [] => (result ++ [n], [])
  | [], result, p :: rs => (result, { p with children := p.children ++ [n] } :: rs)
  | e :: more, result, rest =>
      attachChain (PNode.toNav { e with children := e.children ++ [n] }) more result rest

/-- Pop the entries `popped` (top first) off the stack, attaching each to
its parent; `rest` is the part of the stack that survives. -/
def collapse (popped : List PNode) (result : List NavNode) (rest : List PNode) :
    List NavNode × List PNode :=
  match popped with
  | [] => (result, rest)
  | e :: more => attachChain e.toNav more result rest

/-- Process one record (scraper.js:392-417): pop while the level of the
stack top is `>=` the level of the record, then push the fresh node. -/
def buildStep (st : List NavNode × List PNode) (r : FlatRecord) :
    List NavNode × List PNode :=
  let popped := st.2.takeWhile (fun e => r.level ≤ e.level)
  let rest := st.2.dropWhile (fun e => r.level ≤ e.level)
  let cr := collapse popped st.1 rest
  (cr.1, ⟨r.title, r.url, r.pathname, [], r.level⟩ :: cr.2)

/-- `buildTree(nodes)` (scraper.js:386-420): single left-to-right pass;
at the end every still-open stack entry is finalized. -/
def buildTree (records : List FlatRecord) : List NavNode :=
  let st := records.foldl buildStep ([], [])
  (collapse st.2 st.1 []).1

/-- The synthetic root returned by `extractLinks` for one start URL
(scraper.js:424-429): title `根节点`, the start URL itself as `url`, its
pathname, and the reconstructed forest as `children`. -/
def extractedTree (baseUrl : String) (basePathname : String)
    (records : List FlatRecord) : NavNode :=
  .node "根节点" (some baseUrl) (some basePathname) (buildTree records)

/-! ## Pre-order content of trees and of in-progress build states -/

/-- The data a tree node carries, independent of its position. -/
structure NodeInfo where
  title : String
  url : Option String
  pathname : Option String
deriving Repr, DecidableEq

mutual
def preorderTree : NavNode → List NodeInfo
  | .node t u p cs => ⟨t, u, p⟩ :: preorderForest cs
def preorderForest : List NavNode → List NodeInfo
  | [] => []
  | n :: ns => preorderTree n ++ preorderForest ns
end

def FlatRecord.info (r : FlatRecord) : NodeInfo := ⟨r.title, r.url, r.pathname⟩

def PNode.info (e : PNode) : NodeInfo := ⟨e.title, e.url, e.pathname⟩

/-- Pre-order content of an open ancestor stack, listed bottom-first:
each open node, then the children already attached to it, then the
entries above it (which will end up as its last descendants). -/
def stackItems : List PNode → List NodeInfo
  | [] => []
  | e :: above => e.info :: (preorderForest e.children ++ stackItems above)

/-- Pre-order content of a build state `(result, stack)` (stack top
first, hence the reversal). -/
def stateItems (st : List NavNode × List PNode) : List NodeInfo :=
  preorderForest st.1 ++ stackItems st.2.reverse

theorem preorderForest_append (a b : List NavNode) :
    preorderForest (a ++ b) = preorderForest a ++ preorderForest b := by
  induction a with
  | nil => simp [preorderForest]
  | cons n ns ih => simp [preorderForest, ih]

theorem preorderTree_toNav (e : PNode) :
    preorderTree e.toNav = e.info :: preorderForest e.children := rfl

theorem stackItems_append_one (l : List PNode) (e : PNode) :
    stackItems (l ++ [e]) = stackItems l ++ e.info :: preorderForest e.children := by
  induction l with
  | nil => simp [stackItems]
  | cons x xs ih => simp [stackItems, ih]

theorem attachChain_items (more : List PNode) :
    ∀ (n : NavNode) (result : List NavNode) (rest : List PNode),
      stateItems (attachChain n more result rest) =
        preorderForest result ++ stackItems (rest.reverse ++ more.reverse) ++
          preorderTree n := by
  induction more with
  | nil =>
    intro n result rest
    cases rest with
    | nil => simp [attachChain, stateItems, stackItems, preorderForest_append,
        preorderForest, preorderTree]
    | cons p rs =>
      simp [attachChain, stateItems, stackItems_append_one, preorderForest_append,
        PNode.info, preorderForest, preorderTree]
  | cons e more ih =>
    intro n result rest
    simp only [attachChain, ih, preorderTree_toNav]
    rw [List.reverse_cons, ← List.append_assoc, stackItems_append_one]
    simp [PNode.info, preorderForest_append, preorderForest, preorderTree]

theorem collapse_items (popped : List PNode) (result : List NavNode)
    (rest : List PNode) :
    stateItems (collapse popped result rest) =
      preorderForest result ++ stackItems ((popped ++ rest).reverse) := by
  cases popped with
  | nil => simp [collapse, stateItems]
  | cons e more =>
    rw [collapse, attachChain_items, preorderTree_toNav, List.append_assoc,
      List.reverse_append, List.reverse_cons]
    rw [show rest.reverse ++ (more.reverse ++ [e]) =
        (rest.reverse ++ more.reverse) ++ [e] from (List.append_assoc _ _ _).symm,
      stackItems_append_one]

theorem attachChain_stack_empty (more : List PNode) :
    ∀ (n : NavNode) (result : List NavNode),
      (attachChain n more result []).2 = [] := by
  induction more with
  | nil => intro n result; rfl
  | cons e more ih => intro n result; simp [attachChain, ih]

theorem collapse_stack_empty (popped : List PNode) (result : List NavNode) :
    (collapse popped result []).2 = [] := by
  cases popped with
  | nil => rfl
  | cons e more => simp [collapse, attachChain_stack_empty]

theorem buildStep_items (st : List NavNode × List PNode) (r : FlatRecord) :
    stateItems (buildStep st r) = stateItems st ++ [r.info] := by
  simp only [buildStep]
  have hsplit := List.takeWhile_append_dropWhile
    (p := fun e => decide (r.level ≤ e.level)) (l := st.2)
  calc stateItems ((collapse (st.2.takeWhile fun e => r.level ≤ e.level) st.1
          (st.2.dropWhile fun e => r.level ≤ e.level)).1,
        (⟨r.title, r.url, r.pathname, [], r.level⟩ : PNode) ::
          (collapse (st.2.takeWhile fun e => r.level ≤ e.level) st.1
            (st.2.dropWhile fun e => r.level ≤ e.level)).2)
      = stateItems (collapse (st.2.takeWhile fun e => r.level ≤ e.level) st.1
          (st.2.dropWhile fun e => r.level ≤ e.level)) ++ [r.info] := by
        simp [stateItems, stackItems_append_one, PNode.info, FlatRecord.info,
          preorderForest, List.append_assoc]
    _ = stateItems st ++ [r.info] := by
        rw [collapse_items, hsplit, stateItems]

theorem foldl_buildStep_items (rs : List FlatRecord) :
    ∀ st : List NavNode × List PNode,
      stateItems (rs.foldl buildStep st) = stateItems st ++ rs.map FlatRecord.info := by
  induction rs with
  | nil => intro st; simp
  | cons r rs ih => intro st; simp [List.foldl_cons, ih, buildStep_items]

theorem buildTree_preorder (rs : List FlatRecord) :
    preorderForest (buildTree rs) = rs.map FlatRecord.info := by
  have hstack := collapse_stack_empty (rs.foldl buildStep ([], [])).2
    (rs.foldl buildStep ([], [])).1
  have hitems := collapse_items (rs.foldl buildStep ([], [])).2
    (rs.foldl buildStep ([], [])).1 []
  have hfold := foldl_buildStep_items rs ([], [])
  simp only [stateItems, hstack, stackItems, List.append_nil, List.reverse_nil] at hitems
  simp only [stateItems, stackItems, preorderForest, List.reverse_nil,
    List.append_nil, List.nil_append] at hfold
  simpa [buildTree, hitems] using hfold

mutual
theorem countLinks_eq_filter_preorder (n : NavNode) :
    countLinks n = ((preorderTree n).filter (fun i => i.url.isSome)).length := by
  cases n with
  | node t u p cs =>
    rw [countLinks, preorderTree, countLinksForest_eq_filter_preorder cs]
    cases u with
    | none => simp [List.filter]
    | some x => simp [List.filter]; omega
theorem countLinksForest_eq_filter_preorder (f : List NavNode) :
    countLinksForest f = ((preorderForest f).filter (fun i => i.url.isSome)).length := by
  cases f with
  | nil => rfl
  | cons n ns =>
    rw [countLinksForest, preorderForest, countLinks_eq_filter_preorder n,
      countLinksForest_eq_filter_preorder ns]
    simp
end

theorem length_filter_info (rs : List FlatRecord) :
    ((rs.map FlatRecord.info).filter (fun i => i.url.isSome)).length =
      (rs.filter (fun r => r.url.isSome)).length := by
  induction rs with
  | nil => rfl
  | cons r rs ih =>
    by_cases h : r.url.isSome <;> simp [FlatRecord.info, List.filter, h, ih]

/-- C1: for every sequence of flat records, the pre-order content of the
forest produced by `buildTree` is exactly the input sequence itself (in
particular the children of every node appear in the same relative order as
their records), and the number of URL-bearing nodes in the forest equals
the number of input records that carried a URL. -/
theorem buildTree_order_and_url_count (rs : List FlatRecord) :
    preorderForest (buildTree rs) = rs.map FlatRecord.info ∧
      countLinksForest (buildTree rs) = (rs.filter (fun r => r.url.isSome)).length := by
  refine ⟨buildTree_preorder rs, ?_⟩
  rw [countLinksForest_eq_filter_preorder, buildTree_preorder rs, length_filter_info]

/-- C2: on the sequence `[{level:0,title:"A",url:u1}, {level:1,title:"B",
url:u2}, {level:2,title:"C",url:u3}, {level:0,title:"D",url:u4}]`,
`buildTree` yields exactly two top-level nodes: A whose single child is B,
B whose single child is C, and D with no children. -/
theorem buildTree_level_reduction_example (u1 u2 u3 u4 : String) :
    buildTree [⟨"A", some u1, none, 0⟩, ⟨"B", some u2, none, 1⟩,
        ⟨"C", some u3, none, 2⟩, ⟨"D", some u4, none, 0⟩] =
      [.node "A" (some u1) none [.node "B" (some u2) none
          [.node "C" (some u3) none []]],
        .node "D" (some u4) none []] := rfl

/-! ## Link Store: the checkpoint file (scraper.js:543-582)

`saveLinks` writes `{extractedAt, startUrl, total, tree, links}`;
`loadLinks` reads it back, preferring `tree` and falling back to the
legacy flat `links` list.  A missing or unreadable file, and a file with
neither field, surface as the same "run extract first" error (the inner
`throw` at 576 is caught at 578 and replaced by the message at 580). -/

structure Checkpoint where
  extractedAt : String
  startUrl : List String
  total : Nat
  tree : Option NavNode
  links : Option (List LinkRecord)

/-- `saveLinks(tree)` (scraper.js:543-557). -/
def saveLinks (extractedAt : String) (startUrl : List String) (tree : NavNode) :
    Checkpoint :=
  { extractedAt := extractedAt
    startUrl := startUrl
    total := (flattenTree tree).length
    tree := some tree
    links := some (flattenTree tree) }

/-- What `loadLinks` hands to its caller: the tree when present, else the
legacy flat list. -/
inductive LoadedLinks : Type where
  | tree (t : NavNode) : LoadedLinks
  | flat (ls : List LinkRecord) : LoadedLinks
deriving Repr

/-- `loadLinks()` (scraper.js:562-582); `none` models a missing or
unreadable checkpoint file. -/
def loadLinks : Option Checkpoint → Except String LoadedLinks
  | none => .error "链接文件不存在，请先运行提取阶段 (--stage extract)"
  | some d =>
    match d.tree with
    | some t => .ok (.tree t)
    | none =>
      match d.links with
      | some ls => .ok (.flat ls)
      | none => .error "链接文件不存在，请先运行提取阶段 (--stage extract)"

/-- The link list the scrape stage iterates (scraper.js:645-655): for a
loaded tree the guard `data.children || (data.url && !Array.isArray(data))`
is true (a node object always has a `children` array, and any array —
even empty — is truthy), so the tree is flattened; for a loaded legacy
array the guard is false (`.children`/`.url` are undefined on an Array)
and `Array.isArray` routes the stored list through unchanged. -/
def scrapeStageLinks : LoadedLinks → List LinkRecord
  | .tree t => flattenTree t
  | .flat ls => ls

/-- `flattenTree` as `generateIndexHtml` applies it to the loaded value
(scraper.js:78 called from 726 and 759): on a legacy flat Array the
traversal reads `.url` and `.children`, both undefined on an Array, so it
pushes nothing and recurses nowhere — the result is empty. -/
def flattenTreeLoaded : LoadedLinks → List LinkRecord
  | .tree t => flattenTree t
  | .flat _ => []

/-! ## Spec-side flattening (spec §4.4), for comparison with the source -/

/-- Stated from the words of the spec, not from the source: "`flatLinks` via
pre-order flattening of `tree` (only nodes carrying a URL are emitted, in
document order, ignoring folder-only nodes)". -/
def specPreorderLinks (t : NavNode) : List LinkRecord :=
  (preorderTree t).filterMap (fun i =>
    match i.url with
    | some u => some ⟨u, i.title, i.pathname⟩
    | none => none)

def specPreorderLinksForest (f : List NavNode) : List LinkRecord :=
  (preorderForest f).filterMap (fun i =>
    match i.url with
    | some u => some ⟨u, i.title, i.pathname⟩
    | none => none)

mutual
theorem flattenTree_eq_spec (n : NavNode) : flattenTree n = specPreorderLinks n := by
  cases n with
  | node t u p cs =>
    simp only [flattenTree, specPreorderLinks, preorderTree, List.filterMap_cons]
    cases u with
    | none => simpa [specPreorderLinksForest] using flattenForest_eq_spec cs
    | some x => simpa [specPreorderLinksForest] using flattenForest_eq_spec cs
theorem flattenForest_eq_spec (f : List NavNode) :
    flattenForest f = specPreorderLinksForest f := by
  cases f with
  | nil => rfl
  | cons n ns =>
    rw [flattenForest, specPreorderLinksForest, preorderForest, List.filterMap_append]
    rw [flattenTree_eq_spec n, flattenForest_eq_spec ns]
    rfl
end

theorem length_filterMap_url (l : List NodeInfo) :
    (l.filterMap (fun i =>
        match i.url with
        | some u => some (⟨u, i.title, i.pathname⟩ : LinkRecord)
        | none => none)).length =
      (l.filter (fun i => i.url.isSome)).length := by
  induction l with
  | nil => rfl
  | cons i l ih =>
    rw [List.filterMap_cons, List.filter_cons]
    cases h : i.url <;> simp [h, ih]

theorem flattenTree_length_eq_countLinks (t : NavNode) :
    (flattenTree t).length = countLinks t := by
  rw [flattenTree_eq_spec, specPreorderLinks, length_filterMap_url,
    countLinks_eq_filter_preorder]

/-- C5: the checkpoint written by `saveLinks` satisfies: `total` equals
the length of the persisted `links` list, which equals the number of
URL-carrying nodes in the persisted tree, and `links` is exactly the
pre-order flattening of the tree that emits only URL-carrying nodes in
document order (the spec-side `specPreorderLinks`). -/
theorem saveLinks_invariant (ts : String) (su : List String) (t : NavNode) :
    (saveLinks ts su t).tree = some t ∧
      (saveLinks ts su t).links = some (flattenTree t) ∧
      (saveLinks ts su t).total = (flattenTree t).length ∧
      (flattenTree t).length = countLinks t ∧
      flattenTree t = specPreorderLinks t :=
  ⟨rfl, rfl, rfl, flattenTree_length_eq_countLinks t, flattenTree_eq_spec t⟩

/-- C4 evidence: a legacy checkpoint (flat `links` only, no `tree`) is
accepted by `loadLinks` and the scrape stage enumerates exactly the
stored list, but `generateIndexHtml` flattens the loaded Array itself and
obtains the empty list, so the rendered index contains no entries and
reports a total of 0 instead of the stored links. -/
theorem legacy_checkpoint_render_bug :
    loadLinks (some
        { extractedAt := "2024-01-01T00:00:00.000Z"
          startUrl := ["https://developer.huawei.com/consumer/cn/doc/"]
          total := 1
          tree := none
          links := some [⟨"https://developer.huawei.com/consumer/cn/doc/a", "A",
            some "/consumer/cn/doc/a"⟩] }) =
      .ok (.flat [⟨"https://developer.huawei.com/consumer/cn/doc/a", "A",
        some "/consumer/cn/doc/a"⟩]) ∧
    scrapeStageLinks (.flat [⟨"https://developer.huawei.com/consumer/cn/doc/a", "A",
        some "/consumer/cn/doc/a"⟩]) =
      [⟨"https://developer.huawei.com/consumer/cn/doc/a", "A",
        some "/consumer/cn/doc/a"⟩] ∧
    flattenTreeLoaded (.flat [⟨"https://developer.huawei.com/consumer/cn/doc/a", "A",
        some "/consumer/cn/doc/a"⟩]) = [] :=
  ⟨rfl, rfl, rfl⟩

/-! ## Folder-only childless nodes (spec §3 NavNode invariant)

Nothing in `buildTree`, `extractLinks` or `saveLinks` prunes nodes, so a
record with no URL and no later, deeper record yields a node with `url:
null` and `children: []` in the persisted tree.  `pruneForest` below is
the pruning the invariant of the spec asks for; it is used to show that such
nodes are invisible to the flattened link list. -/

/-- A node survives the invariant of the spec iff it carries a URL or has at
least one (surviving) child. -/
def keepNode (n : NavNode) : Bool := n.url.isSome || !n.children.isEmpty

mutual
def pruneNode : NavNode → NavNode
  | .node t u p cs => .node t u p (pruneForest cs)
def pruneForest : List NavNode → List NavNode
  | [] => []
  | n :: ns =>
    (if keepNode (pruneNode n) then [pruneNode n] else []) ++ pruneForest ns
end

mutual
def hasEmptyFolder : NavNode → Bool
  | .node _ u _ cs => (u.isNone && cs.isEmpty) || hasEmptyFolderForest cs
def hasEmptyFolderForest : List NavNode → Bool
  | [] => false
  | n :: ns => hasEmptyFolder n || hasEmptyFolderForest ns
end

mutual
theorem flattenTree_prune (n : NavNode) :
    flattenTree (pruneNode n) = flattenTree n := by
  cases n with
  | node t u p cs =>
    simp only [pruneNode, flattenTree]
    rw [flattenForest_prune cs]
theorem flattenForest_prune (f : List NavNode) :
    flattenForest (pruneForest f) = flattenForest f := by
  cases f with
  | nil => rfl
  | cons n ns =>
    rw [pruneForest]
    by_cases h : keepNode (pruneNode n) = true
    · simp only [h, if_pos]
      show flattenForest (pruneNode n :: pruneForest ns) = _
      rw [flattenForest, flattenTree_prune n, flattenForest_prune ns, flattenForest]
    · have hflat : flattenTree n = [] := by
        rw [← flattenTree_prune n]
        rcases hpn : pruneNode n with ⟨t, u, p, cs⟩
        rw [hpn] at h
        simp only [keepNode, NavNode.url, NavNode.children, Bool.or_eq_true,
          Option.isSome_iff_exists, Bool.not_eq_true', List.isEmpty_eq_false,
          not_or, not_exists] at h
        have hu : u = none := by
          cases u with
          | none => rfl
          | some x => exact absurd rfl (h.1 x)
        have hcs : cs = [] := by
          by_cases hc : cs = []
          · exact hc
          · simp [Bool.not_eq_false] at h
            exact absurd h.2 hc
        subst hu hcs
        rfl
      rw [if_neg h, List.nil_append, flattenForest_prune ns]
      show flattenForest ns = flattenForest (n :: ns)
      rw [flattenForest, hflat, List.nil_append]
end

mutual
theorem hasEmptyFolder_pruneNode (n : NavNode) :
    keepNode (pruneNode n) = true → hasEmptyFolder (pruneNode n) = false := by
  intro hk
  cases n with
  | node t u p cs =>
    simp only [pruneNode, hasEmptyFolder]
    simp only [pruneNode, keepNode, NavNode.url, NavNode.children] at hk
    rw [hasEmptyFolderForest_prune cs]
    rcases Bool.or_eq_true_iff.mp hk with h | h
    · simp [Option.isNone_iff_eq_none, Option.isSome_iff_exists] at h ⊢
      rcases h with ⟨x, hx⟩
      simp [hx]
    · simp [Bool.not_eq_true', List.isEmpty_eq_false] at h
      simp [List.isEmpty_eq_false.mpr h]
theorem hasEmptyFolderForest_prune (f : List NavNode) :
    hasEmptyFolderForest (pruneForest f) = false := by
  cases f with
  | nil => rfl
  | cons n ns =>
    rw [pruneForest]
    by_cases h : keepNode (pruneNode n) = true
    · simp only [h, if_pos]
      show hasEmptyFolderForest (pruneNode n :: pruneForest ns) = false
      rw [hasEmptyFolderForest, hasEmptyFolder_pruneNode n h,
        hasEmptyFolderForest_prune ns]
      rfl
    · simp only [h, if_neg, List.nil_append]
      exact hasEmptyFolderForest_prune ns
end

/-- C3 (counterexample): a single extracted row with no URL at level 0
gives a persisted tree whose child `X` has neither URL nor children, so
the final tree used for counting and fetching does contain a childless
folder-only node. -/
theorem persisted_tree_empty_folder_cex :
    (saveLinks "2024-01-01T00:00:00.000Z"
        ["https://developer.huawei.com/consumer/cn/doc/"]
        (extractedTree "https://developer.huawei.com/consumer/cn/doc/"
          "/consumer/cn/doc/" [⟨"X", none, none, 0⟩])).tree =
      some (.node "根节点" (some "https://developer.huawei.com/consumer/cn/doc/")
        (some "/consumer/cn/doc/") [.node "X" none none []]) ∧
    hasEmptyFolder (.node "根节点"
        (some "https://developer.huawei.com/consumer/cn/doc/")
        (some "/consumer/cn/doc/") [.node "X" none none []]) = true :=
  ⟨rfl, rfl⟩

/-- C3 (amended): the extraction pipeline performs no pruning, so nodes
with no URL and no children can appear in the persisted tree; they are
however invisible to the counting/fetching view: removing every such node
leaves the flattened link list unchanged, and after that removal the
children of any node contain no folder-only childless node. -/
theorem empty_folders_invisible_to_flatten (t : NavNode) :
    flattenTree (pruneNode t) = flattenTree t ∧
      hasEmptyFolderForest (pruneForest t.children) = false :=
  ⟨flattenTree_prune t, hasEmptyFolderForest_prune t.children⟩

/-! ## urlToFilePath (scraper.js:460-488)

`new URL(url)` is a platform builtin; its outcome is modelled as an
`Option JsUrl` (parse failure = the catch branch at 484-487).  The
pathname transformation itself (463-481) is embedded character by
character. -/

/-- The view of a parsed WHATWG URL that the scraper reads: `origin`,
`pathname`, and `href` (`url.toString()`). -/
structure JsUrl where
  origin : String
  pathname : List Char
  href : List Char

def htmlExt : List Char := ['.', 'h', 't', 'm', 'l']

/-- The character class of `/[<>:"|?*]/g` (scraper.js:471). -/
def isIllegalFileChar (c : Char) : Bool :=
  c = '<' || c = '>' || c = ':' || c = '"' || c = '|' || c = '?' || c = '*'

/-- `if (filePath.startsWith('/')) filePath = filePath.substring(1)`
(scraper.js:466-468). -/
def stripLeadingSlash : List Char → List Char
  | '/' :: rest => rest
  | p => p

/-- `filePath.replace(/[<>:"|?*]/g, '_')` (scraper.js:471). -/
def replaceIllegal (p : List Char) : List Char :=
  p.map (fun c => if isIllegalFileChar c then '_' else c)

/-- `if (!filePath || filePath === '/') filePath = 'index'`
(scraper.js:474-476). -/
def defaultIndex (p : List Char) : List Char :=
  if p = [] ∨ p = ['/'] then "index".toList else p

/-- The step `if (!filePath.endsWith(html)) filePath = filePath + html`
with html the five-character extension string
(scraper.js:479-481). -/
def ensureHtml (p : List Char) : List Char :=
  if htmlExt <:+ p then p else p ++ htmlExt

def urlPathToFilePath (pathname : List Char) : List Char :=
  ensureHtml (defaultIndex (replaceIllegal (stripLeadingSlash pathname)))

/-- `path.join(this.outputDir, rel)` for a relative part with no leading
separator. -/
def pathJoin (dir rel : List Char) : List Char := dir ++ '/' :: rel

/-- `urlToFilePath(url)` (scraper.js:460-488): on parse failure the catch
branch returns `outputDir/error.html`. -/
def urlToFilePath (outputDir : List Char) : Option JsUrl → List Char
  | some u => pathJoin outputDir (urlPathToFilePath u.pathname)
  | none => pathJoin outputDir ("error.html".toList)

/-! ## href canonicalization inside extractLinks (scraper.js:344-367) -/

/-- `urlString.split('#')[0]` (scraper.js:361): everything before the
first `#`. -/
def stripFragment (s : List Char) : List Char := s.takeWhile (fun c => c ≠ '#')

/-- The keep test and fragment strip (scraper.js:359-364): the resolved
URL is kept only when its origin equals the base origin and its pathname
contains `/doc/`; `none` models both a failed resolution (the catch at
365) and a rejected link. -/
def canonFilter (base : JsUrl) : Option JsUrl → Option (List Char)
  | none => none
  | some u =>
    if u.origin = base.origin ∧ "/doc/".toList <:+: u.pathname then
      some (stripFragment u.href)
    else none

/-- The three resolution forms (scraper.js:349-356), with the browser
`new URL` constructors passed in as capabilities: absolute hrefs are
parsed alone, root-relative hrefs resolve against the base origin, and
everything else resolves against the document URL. -/
def resolveHref (parseAbs : List Char → Option JsUrl)
    (resolveRel : List Char → String → Option JsUrl)
    (base : JsUrl) (baseUrl : String) (href : List Char) : Option JsUrl :=
  if "http://".toList <+: href ∨ "https://".toList <+: href then parseAbs href
  else if ['/'] <+: href then resolveRel href base.origin
  else resolveRel href baseUrl

def canonicalizeHref (parseAbs : List Char → Option JsUrl)
    (resolveRel : List Char → String → Option JsUrl)
    (base : JsUrl) (baseUrl : String) (href : List Char) : Option (List Char) :=
  canonFilter base (resolveHref parseAbs resolveRel base baseUrl href)

theorem stripLeadingSlash_cons_ne (a : Char) (l : List Char) (h : a ≠ '/') :
    stripLeadingSlash (a :: l) = a :: l := by
  unfold stripLeadingSlash
  split
  · rename_i heq
    cases heq
    exact absurd rfl h
  · rfl

theorem mem_replaceIllegal_not_illegal (p : List Char) (c : Char)
    (h : c ∈ replaceIllegal p) : isIllegalFileChar c = false := by
  rcases List.mem_map.mp h with ⟨a, _, ha⟩
  by_cases hi : isIllegalFileChar a = true
  · rw [if_pos hi] at ha
    rw [← ha]
    decide
  · rw [if_neg hi] at ha
    rw [← ha]
    exact Bool.not_eq_true _ ▸ hi

theorem replaceIllegal_append (a b : List Char) :
    replaceIllegal (a ++ b) = replaceIllegal a ++ replaceIllegal b :=
  List.map_append _ a b

theorem replaceIllegal_htmlExt : replaceIllegal htmlExt = htmlExt := by decide

theorem ensureHtml_endsWith (x : List Char) : htmlExt <:+ ensureHtml x := by
  unfold ensureHtml
  split
  · assumption
  · exact List.suffix_append x htmlExt

theorem suffix_stripLeadingSlash (p : List Char) (h : htmlExt <:+ p) :
    htmlExt <:+ stripLeadingSlash p := by
  obtain ⟨s, hs⟩ := h
  cases s with
  | nil => rw [← hs]; exact ⟨[], rfl⟩
  | cons a s' =>
    rw [← hs]
    by_cases ha : a = '/'
    · subst ha
      exact ⟨s', rfl⟩
    · rw [List.cons_append, stripLeadingSlash_cons_ne a _ ha]
      exact ⟨a :: s', rfl⟩

theorem suffix_replaceIllegal (p : List Char) (h : htmlExt <:+ p) :
    htmlExt <:+ replaceIllegal p := by
  obtain ⟨s, hs⟩ := h
  rw [← hs, replaceIllegal_append, replaceIllegal_htmlExt]
  exact List.suffix_append _ _

theorem urlPathToFilePath_no_double_ext (p : List Char) (h : htmlExt <:+ p) :
    urlPathToFilePath p = replaceIllegal (stripLeadingSlash p) := by
  have h1 : htmlExt <:+ replaceIllegal (stripLeadingSlash p) :=
    suffix_replaceIllegal _ (suffix_stripLeadingSlash p h)
  have hlen : 5 ≤ (replaceIllegal (stripLeadingSlash p)).length := h1.length_le
  have hne1 : replaceIllegal (stripLeadingSlash p) ≠ [] := by
    intro he
    rw [he] at hlen
    simp at hlen
  have hne2 : replaceIllegal (stripLeadingSlash p) ≠ ['/'] := by
    intro he
    rw [he] at hlen
    simp at hlen
  unfold urlPathToFilePath
  rw [defaultIndex, if_neg (by
    intro hor
    rcases hor with he | he
    · exact hne1 he
    · exact hne2 he)]
  rw [ensureHtml, if_pos h1]

theorem mem_urlPathToFilePath_not_illegal (p : List Char) (c : Char)
    (h : c ∈ urlPathToFilePath p) : isIllegalFileChar c = false := by
  have hhtml : ∀ d ∈ htmlExt, isIllegalFileChar d = false := by decide
  have hindex : ∀ d ∈ "index".toList, isIllegalFileChar d = false := by decide
  unfold urlPathToFilePath ensureHtml at h
  split at h
  case isTrue =>
    rw [defaultIndex] at h
    split at h
    · exact hindex c h
    · exact mem_replaceIllegal_not_illegal _ c h
  case isFalse =>
    rcases List.mem_append.mp h with h | h
    · rw [defaultIndex] at h
      split at h
      · exact hindex c h
      · exact mem_replaceIllegal_not_illegal _ c h
    · exact hhtml c h

/-- C6: the URL-to-storage-path mapping is pure and idempotent: the same
input always yields the same path; a leading `/` is stripped; the empty
pathname maps to `index.html`; no character illegal in file names
survives into the relative path; a pathname already ending in `.html`
gains no further extension (the result is exactly the cleaned pathname);
and every result ends in `.html`. -/
theorem urlToFilePath_pure_idempotent (dir : List Char) (u : Option JsUrl)
    (p q : List Char) :
    urlToFilePath dir u = urlToFilePath dir u ∧
      stripLeadingSlash ('/' :: q) = q ∧
      urlPathToFilePath [] = "index.html".toList ∧
      (∀ c ∈ urlPathToFilePath p, isIllegalFileChar c = false) ∧
      (htmlExt <:+ p → urlPathToFilePath p = replaceIllegal (stripLeadingSlash p)) ∧
      htmlExt <:+ urlPathToFilePath p :=
  ⟨rfl, rfl, by decide, fun c hc => mem_urlPathToFilePath_not_illegal p c hc,
    fun h => urlPathToFilePath_no_double_ext p h, ensureHtml_endsWith _⟩

/-- C6 witness: the properties with hypotheses, discharged at
`p = "/a:b.html"`. -/
theorem urlToFilePath_pure_idempotent_witness :
    isIllegalFileChar '_' = false ∧
      urlPathToFilePath ("/a:b.html".toList) =
        replaceIllegal (stripLeadingSlash ("/a:b.html".toList)) :=
  ⟨(urlToFilePath_pure_idempotent [] none ("/a:b.html".toList) []).2.2.2.1 '_'
      (by decide),
    (urlToFilePath_pure_idempotent [] none ("/a:b.html".toList) []).2.2.2.2.1
      (by decide)⟩

/-- C10: the mapping is total over arbitrary input strings: whenever the
URL parse fails the function does not fail but returns the fixed fallback
`outputDir/error.html`, so any two unparseable inputs collide on the same
storage path. -/
theorem urlToFilePath_unparseable_fallback (dir : List Char)
    (parse : String → Option JsUrl) (s1 s2 : String)
    (h1 : parse s1 = none) (h2 : parse s2 = none) :
    urlToFilePath dir (parse s1) = pathJoin dir ("error.html".toList) ∧
      urlToFilePath dir (parse s1) = urlToFilePath dir (parse s2) := by
  rw [h1, h2]
  exact ⟨rfl, rfl⟩

/-- C10 witness: two distinct unparseable inputs under a parser that
rejects everything land on the same `error.html` path. -/
theorem urlToFilePath_unparseable_fallback_witness :
    urlToFilePath ("docs".toList) ((fun (_ : String) => (none : Option JsUrl)) "::") =
        pathJoin ("docs".toList) ("error.html".toList) ∧
      urlToFilePath ("docs".toList) ((fun (_ : String) => (none : Option JsUrl)) "::") =
        urlToFilePath ("docs".toList) ((fun (_ : String) => (none : Option JsUrl)) "not a url") :=
  urlToFilePath_unparseable_fallback ("docs".toList) (fun _ => none) "::" "not a url" rfl rfl

theorem hash_not_mem_stripFragment (s : List Char) : '#' ∉ stripFragment s := by
  intro h
  have := List.mem_takeWhile_imp h
  simp at this

/-- C7: a candidate href is resolved in one of three forms — absolute
(own parse), root-relative (against the base origin), document-relative
(against the document URL) — and the resolved URL yields a canonical
link only when its origin equals the base origin and its pathname
contains `/doc/`; in that case the result is the fragment-stripped
`toString` (and indeed contains no `#`); in every other case, including a
failed resolution, no URL is produced. -/
theorem canonicalize_same_origin_docpath (parseAbs : List Char → Option JsUrl)
    (resolveRel : List Char → String → Option JsUrl)
    (base : JsUrl) (baseUrl : String) (href : List Char) (r : Option JsUrl) :
    (("http://".toList <+: href ∨ "https://".toList <+: href) →
        canonicalizeHref parseAbs resolveRel base baseUrl href =
          canonFilter base (parseAbs href)) ∧
      (¬("http://".toList <+: href ∨ "https://".toList <+: href) →
        ['/'] <+: href →
        canonicalizeHref parseAbs resolveRel base baseUrl href =
          canonFilter base (resolveRel href base.origin)) ∧
      (¬("http://".toList <+: href ∨ "https://".toList <+: href) →
        ¬(['/'] <+: href) →
        canonicalizeHref parseAbs resolveRel base baseUrl href =
          canonFilter base (resolveRel href baseUrl)) ∧
      (∀ s, canonFilter base r = some s →
        ∃ u, r = some u ∧ u.origin = base.origin ∧
          ("/doc/".toList <:+: u.pathname) ∧ s = stripFragment u.href ∧ '#' ∉ s) ∧
      (∀ u, r = some u →
        ¬(u.origin = base.origin ∧ "/doc/".toList <:+: u.pathname) →
        canonFilter base r = none) ∧
      canonFilter base none = none := by
  refine ⟨?_, ?_, ?_, ?_, ?_, rfl⟩
  · intro h
    rw [canonicalizeHref, resolveHref, if_pos h]
  · intro h1 h2
    rw [canonicalizeHref, resolveHref, if_neg h1, if_pos h2]
  · intro h1 h2
    rw [canonicalizeHref, resolveHref, if_neg h1, if_neg h2]
  · intro s hs
    cases r with
    | none => exact absurd hs (by simp [canonFilter])
    | some u =>
      rw [canonFilter] at hs
      split at hs
      · rename_i hcond
        refine ⟨u, rfl, hcond.1, hcond.2, (Option.some_inj.mp hs).symm, ?_⟩
        rw [← Option.some_inj.mp hs]
        exact hash_not_mem_stripFragment u.href
      · exact absurd hs (by simp)
  · intro u hu hnot
    rw [hu, canonFilter, if_neg hnot]

/-- C7 witness: an absolute same-origin `/doc/` href resolves through the
absolute branch and survives the filter with its fragment stripped; a
same-path href on a different origin is rejected. -/
theorem canonicalize_same_origin_docpath_witness :
    canonicalizeHref
        (fun h => some ⟨"https://d.h.com", "/cn/doc/a".toList, h⟩)
        (fun _ _ => none)
        ⟨"https://d.h.com", "/cn/doc/".toList, "https://d.h.com/cn/doc/".toList⟩
        "https://d.h.com/cn/doc/" ("https://d.h.com/cn/doc/a#frag".toList) =
      canonFilter ⟨"https://d.h.com", "/cn/doc/".toList, "https://d.h.com/cn/doc/".toList⟩
        (some ⟨"https://d.h.com", "/cn/doc/a".toList, "https://d.h.com/cn/doc/a#frag".toList⟩) ∧
      canonFilter ⟨"https://d.h.com", "/cn/doc/".toList, "https://d.h.com/cn/doc/".toList⟩
        (some ⟨"https://other.com", "/cn/doc/a".toList, "https://other.com/cn/doc/a".toList⟩) =
      none :=
  ⟨(canonicalize_same_origin_docpath
      (fun h => some ⟨"https://d.h.com", "/cn/doc/a".toList, h⟩)
      (fun _ _ => none)
      ⟨"https://d.h.com", "/cn/doc/".toList, "https://d.h.com/cn/doc/".toList⟩
      "https://d.h.com/cn/doc/" ("https://d.h.com/cn/doc/a#frag".toList) none).1
      (by decide),
    (canonicalize_same_origin_docpath
      (fun h => some ⟨"https://d.h.com", "/cn/doc/a".toList, h⟩)
      (fun _ _ => none)
      ⟨"https://d.h.com", "/cn/doc/".toList, "https://d.h.com/cn/doc/".toList⟩
      "https://d.h.com/cn/doc/" ("https://d.h.com/cn/doc/a#frag".toList)
      (some ⟨"https://other.com", "/cn/doc/a".toList, "https://other.com/cn/doc/a".toList⟩)).2.2.2.2.1
      ⟨"https://other.com", "/cn/doc/a".toList, "https://other.com/cn/doc/a".toList⟩ rfl
      (by decide)⟩

/-! ## Page Fetcher (scraper.js:493-538, loop at 696-705)

`scrapePage(url, title)` mutates the per-run crawl state; here the state
is threaded explicitly.  The filesystem is the set of existing storage
paths (`fs.pathExists` / `fs.writeFile`); the whole fallible try block —
navigation, rendering, write — is the `fetch` capability returning the
saved HTML or the message of the thrown error. -/

structure FailedUrl where
  url : String
  title : String
  error : String
deriving Repr, DecidableEq

structure ScrapeState where
  visitedUrls : List String
  failedUrls : List FailedUrl
  successCount : Nat
  skippedCount : Nat
  files : List (List Char)
deriving Repr

/-- `scrapePage` (scraper.js:493-538): duplicate suppression (494-496),
mark visited (498), compute the storage path (499), incremental skip when
the file exists (502-509), then fetch and either record the file and
bump `successCount` (511-533) or append to `failedUrls` (534-537). -/
def scrapePage (parse : String → Option JsUrl)
    (fetch : String → Except String String) (incremental : Bool)
    (outputDir : List Char) (s : ScrapeState) (url title : String) : ScrapeState :=
  if url ∈ s.visitedUrls then s
  else
    let s1 : ScrapeState := { s with visitedUrls := url :: s.visitedUrls }
    let filePath := urlToFilePath outputDir (parse url)
    if incremental = true ∧ filePath ∈ s1.files then
      { s1 with skippedCount := s1.skippedCount + 1 }
    else
      match fetch url with
      | .ok _ =>
        { s1 with files := filePath :: s1.files, successCount := s1.successCount + 1 }
      | .error e => { s1 with failedUrls := s1.failedUrls ++ [⟨url, title, e⟩] }

/-- The scrape-stage fetch loop (scraper.js:696-705): `scrapePage` over
every link in order (the pacing delay has no observable state effect). -/
def fetchAll (parse : String → Option JsUrl)
    (fetch : String → Except String String) (incremental : Bool)
    (outputDir : List Char) (links : List LinkRecord) (s : ScrapeState) :
    ScrapeState :=
  links.foldl (fun st l => scrapePage parse fetch incremental outputDir st l.url l.title) s

theorem scrapePage_skip (parse : String → Option JsUrl)
    (fetch : String → Except String String) (dir : List Char) (s : ScrapeState)
    (url title : String) (hv : url ∉ s.visitedUrls)
    (hf : urlToFilePath dir (parse url) ∈ s.files) :
    scrapePage parse fetch true dir s url title =
      { s with visitedUrls := url :: s.visitedUrls,
               skippedCount := s.skippedCount + 1 } := by
  rw [scrapePage, if_neg hv, if_pos ⟨rfl, hf⟩]

theorem scrapePage_fetch_ok (parse : String → Option JsUrl)
    (fetch : String → Except String String) (incremental : Bool)
    (dir : List Char) (s : ScrapeState) (url title : String) (html : String)
    (hv : url ∉ s.visitedUrls)
    (hf : ¬(incremental = true ∧ urlToFilePath dir (parse url) ∈ s.files))
    (hok : fetch url = .ok html) :
    scrapePage parse fetch incremental dir s url title =
      { s with visitedUrls := url :: s.visitedUrls,
               files := urlToFilePath dir (parse url) :: s.files,
               successCount := s.successCount + 1 } := by
  rw [scrapePage, if_neg hv, if_neg hf, hok]

theorem scrapePage_fetch_error (parse : String → Option JsUrl)
    (fetch : String → Except String String) (incremental : Bool)
    (dir : List Char) (s : ScrapeState) (url title : String) (e : String)
    (hv : url ∉ s.visitedUrls)
    (hf : ¬(incremental = true ∧ urlToFilePath dir (parse url) ∈ s.files))
    (herr : fetch url = .error e) :
    scrapePage parse fetch incremental dir s url title =
      { s with visitedUrls := url :: s.visitedUrls,
               failedUrls := s.failedUrls ++ [⟨url, title, e⟩] } := by
  rw [scrapePage, if_neg hv, if_neg hf, herr]

/-- C8: in incremental mode a link whose storage path already exists is
skipped — the outcome does not depend on the fetch capability at all (no
navigation is attempted) and `skippedCount` grows by exactly one while
`successCount` is untouched; a link whose file does not exist is fetched
normally; and the `[u1, u2]` run with the file of `u1` already present
ends with `skippedCount = 1` and `successCount = 1` when the fetch of `u2`
succeeds. -/
theorem incremental_skips_existing (parse : String → Option JsUrl)
    (fetch : String → Except String String) (dir : List Char) (s : ScrapeState)
    (url title : String) :
    (url ∉ s.visitedUrls → urlToFilePath dir (parse url) ∈ s.files →
      (∀ fetch2, scrapePage parse fetch true dir s url title =
        scrapePage parse fetch2 true dir s url title) ∧
      scrapePage parse fetch true dir s url title =
        { s with visitedUrls := url :: s.visitedUrls,
                 skippedCount := s.skippedCount + 1 }) ∧
    (url ∉ s.visitedUrls → urlToFilePath dir (parse url) ∉ s.files →
      ∀ html, fetch url = .ok html →
      scrapePage parse fetch true dir s url title =
        { s with visitedUrls := url :: s.visitedUrls,
                 files := urlToFilePath dir (parse url) :: s.files,
                 successCount := s.successCount + 1 }) ∧
    (∀ u1 u2 t1 t2 html2, u1 ≠ u2 →
      urlToFilePath dir (parse u2) ≠ urlToFilePath dir (parse u1) →
      fetch u2 = .ok html2 →
      (fetchAll parse fetch true dir [⟨u1, t1, none⟩, ⟨u2, t2, none⟩]
          ⟨[], [], 0, 0, [urlToFilePath dir (parse u1)]⟩).skippedCount = 1 ∧
      (fetchAll parse fetch true dir [⟨u1, t1, none⟩, ⟨u2, t2, none⟩]
          ⟨[], [], 0, 0, [urlToFilePath dir (parse u1)]⟩).successCount = 1) := by
  refine ⟨?_, ?_, ?_⟩
  · intro hv hf
    refine ⟨?_, scrapePage_skip parse fetch dir s url title hv hf⟩
    intro fetch2
    rw [scrapePage_skip parse fetch dir s url title hv hf,
      scrapePage_skip parse fetch2 dir s url title hv hf]
  · intro hv hf html hok
    exact scrapePage_fetch_ok parse fetch true dir s url title html hv
      (fun hc => hf hc.2) hok
  · intro u1 u2 t1 t2 html2 hne hpne hok
    have h1 : scrapePage parse fetch true dir ⟨[], [], 0, 0,
        [urlToFilePath dir (parse u1)]⟩ u1 t1 =
        ⟨[u1], [], 0, 1, [urlToFilePath dir (parse u1)]⟩ :=
      scrapePage_skip parse fetch dir _ u1 t1 (by simp) (by simp)
    have h2 : scrapePage parse fetch true dir
        ⟨[u1], [], 0, 1, [urlToFilePath dir (parse u1)]⟩ u2 t2 =
        ⟨[u2, u1], [], 1, 1,
          [urlToFilePath dir (parse u2), urlToFilePath dir (parse u1)]⟩ :=
      scrapePage_fetch_ok parse fetch true dir _ u2 t2 html2
        (by
          simp only [List.mem_singleton]
          exact fun h => hne h.symm)
        (by
          intro hc
          rcases hc with ⟨-, hmem⟩
          simp only [List.mem_singleton] at hmem
          exact hpne hmem)
        hok
    rw [fetchAll, List.foldl_cons, h1, List.foldl_cons, h2, List.foldl_nil]
    exact ⟨rfl, rfl⟩

/-- C8 witness: with a parser sending `"a"`/`"b"` to distinct pathnames,
the file of `"a"` already present, and a fetch that succeeds, the two-link
incremental run ends with one skip and one success. -/
theorem incremental_skips_existing_witness :
    (fetchAll
        (fun u => some ⟨"https://d.h.com", ('/' :: u.toList), ('x' :: u.toList)⟩)
        (fun _ => .ok "html") true ("docs".toList)
        [⟨"a", "A", none⟩, ⟨"b", "B", none⟩]
        ⟨[], [], 0, 0,
          [urlToFilePath ("docs".toList)
            ((fun u => some (⟨"https://d.h.com", ('/' :: String.toList u),
              ('x' :: String.toList u)⟩ : JsUrl)) "a")]⟩).skippedCount = 1 ∧
    (fetchAll
        (fun u => some ⟨"https://d.h.com", ('/' :: u.toList), ('x' :: u.toList)⟩)
        (fun _ => .ok "html") true ("docs".toList)
        [⟨"a", "A", none⟩, ⟨"b", "B", none⟩]
        ⟨[], [], 0, 0,
          [urlToFilePath ("docs".toList)
            ((fun u => some (⟨"https://d.h.com", ('/' :: String.toList u),
              ('x' :: String.toList u)⟩ : JsUrl)) "a")]⟩).successCount = 1 :=
  (incremental_skips_existing
      (fun u => some ⟨"https://d.h.com", ('/' :: u.toList), ('x' :: u.toList)⟩)
      (fun _ => .ok "html") ("docs".toList) ⟨[], [], 0, 0, []⟩ "" "").2.2
    "a" "b" "A" "B" "html" (by decide) (by decide) rfl


theorem visited_still_fresh (ls : List LinkRecord) (vs : List String) (u : String)
    (hvis : ∀ x ∈ ls, x.url ∉ vs) (hu : u ∉ ls.map LinkRecord.url) :
    ∀ x ∈ ls, x.url ∉ u :: vs := by
  intro x hx
  simp only [List.mem_cons, not_or]
  exact ⟨fun he => hu (he ▸ List.mem_map_of_mem LinkRecord.url hx),
    hvis x hx⟩

theorem fetchAll_full_mode (parse : String → Option JsUrl)
    (fetch : String → Except String String) (dir : List Char) :
    ∀ (links : List LinkRecord) (s : ScrapeState),
      (∀ l ∈ links, l.url ∉ s.visitedUrls) →
      (links.map LinkRecord.url).Nodup →
      (fetchAll parse fetch false dir links s).failedUrls =
          s.failedUrls ++ links.filterMap (fun l =>
            match fetch l.url with
            | .error e => some ⟨l.url, l.title, e⟩
            | .ok _ => none) ∧
        (fetchAll parse fetch false dir links s).successCount =
          s.successCount + (links.filter (fun l =>
            match fetch l.url with
            | .ok _ => true
            | .error _ => false)).length ∧
        (fetchAll parse fetch false dir links s).skippedCount = s.skippedCount := by
  intro links
  induction links with
  | nil =>
    intro s _ _
    simp [fetchAll]
  | cons l ls ih =>
    intro s hvis hnodup
    have hl : l.url ∉ s.visitedUrls := hvis l (List.mem_cons_self l ls)
    have hnotand : ¬(false = true ∧ urlToFilePath dir (parse l.url) ∈ s.files) := by
      intro hc
      exact Bool.false_ne_true hc.1
    have hnodup' : (ls.map LinkRecord.url).Nodup := (List.nodup_cons.mp hnodup).2
    have hhead : l.url ∉ ls.map LinkRecord.url := (List.nodup_cons.mp hnodup).1
    have hvis2 : ∀ x ∈ ls, x.url ∉ l.url :: s.visitedUrls :=
      visited_still_fresh ls s.visitedUrls l.url
        (fun x hx => hvis x (List.mem_cons_of_mem l hx)) hhead
    rw [fetchAll, List.foldl_cons]
    cases hf : fetch l.url with
    | ok v =>
      rw [scrapePage_fetch_ok parse fetch false dir s l.url l.title v hl hnotand hf]
      have hih := ih
        { s with
          visitedUrls := l.url :: s.visitedUrls
          files := urlToFilePath dir (parse l.url) :: s.files
          successCount := s.successCount + 1 } hvis2 hnodup'
      rw [fetchAll] at hih
      refine ⟨?_, ?_, ?_⟩
      · rw [hih.1, List.filterMap_cons, hf]
      · rw [hih.2.1, List.filter_cons, hf]
        simp [Nat.add_assoc, Nat.add_comm 1]
      · exact hih.2.2
    | error e =>
      rw [scrapePage_fetch_error parse fetch false dir s l.url l.title e hl hnotand hf]
      have hih := ih
        { s with
          visitedUrls := l.url :: s.visitedUrls
          failedUrls := s.failedUrls ++ [⟨l.url, l.title, e⟩] } hvis2 hnodup'
      rw [fetchAll] at hih
      refine ⟨?_, ?_, ?_⟩
      · rw [hih.1, List.filterMap_cons, hf]
        simp [List.append_assoc]
      · rw [hih.2.1, List.filter_cons, hf]
        simp
      · exact hih.2.2

/-- C9: in a fresh full-mode run over pairwise-distinct links, a fetch
that throws on one link is caught and recorded — the failure list of the
finished run is exactly one record per throwing link, carrying the URL
of that link and the thrown message, in order — while every non-throwing
link is still fetched (`successCount` counts them all), and when the
fetch capability only throws non-empty messages every recorded message is
non-empty. -/
theorem fetch_failures_recorded (parse : String → Option JsUrl)
    (fetch : String → Except String String) (dir : List Char)
    (files0 : List (List Char)) (links : List LinkRecord)
    (hnodup : (links.map LinkRecord.url).Nodup)
    (hmsg : ∀ u e, fetch u = .error e → e ≠ "") :
    (fetchAll parse fetch false dir links ⟨[], [], 0, 0, files0⟩).failedUrls =
        links.filterMap (fun l =>
          match fetch l.url with
          | .error e => some ⟨l.url, l.title, e⟩
          | .ok _ => none) ∧
      (fetchAll parse fetch false dir links ⟨[], [], 0, 0, files0⟩).successCount =
        (links.filter (fun l =>
          match fetch l.url with
          | .ok _ => true
          | .error _ => false)).length ∧
      ∀ f ∈ (fetchAll parse fetch false dir links ⟨[], [], 0, 0, files0⟩).failedUrls,
        f.error ≠ "" := by
  have h := fetchAll_full_mode parse fetch dir links ⟨[], [], 0, 0, files0⟩
    (by intro l _; simp) hnodup
  refine ⟨by simpa using h.1, by simpa using h.2.1, ?_⟩
  intro f hfmem
  rw [h.1] at hfmem
  simp only [List.nil_append] at hfmem
  rcases List.mem_filterMap.mp hfmem with ⟨l, -, hsome⟩
  cases hf : fetch l.url with
  | ok v =>
    rw [hf] at hsome
    exact absurd hsome (by simp)
  | error e =>
    rw [hf] at hsome
    have hfe : f = ⟨l.url, l.title, e⟩ := by
      simpa using hsome.symm
    rw [hfe]
    exact hmsg l.url e hf

/-- C9 witness: over `["a", "b"]` with a fetch that throws `"boom"` on
`"a"` and succeeds on `"b"`, the run records exactly the one failure and
still fetches the other link. -/
theorem fetch_failures_recorded_witness :
    (fetchAll (fun _ => none)
        (fun u => if u = "a" then .error "boom" else .ok "html") false []
        [⟨"a", "A", none⟩, ⟨"b", "B", none⟩] ⟨[], [], 0, 0, []⟩).failedUrls =
      [⟨"a", "A", "boom"⟩] ∧
    (fetchAll (fun _ => none)
        (fun u => if u = "a" then .error "boom" else .ok "html") false []
        [⟨"a", "A", none⟩, ⟨"b", "B", none⟩] ⟨[], [], 0, 0, []⟩).successCount = 1 := by
  have hmsg : ∀ u e, (fun u => if u = "a" then Except.error "boom"
      else Except.ok "html") u = Except.error e → e ≠ "" := by
    intro u e h
    have h2 : (if u = "a" then Except.error "boom" else Except.ok "html") =
        (Except.error e : Except String String) := h
    by_cases hu : u = "a"
    · rw [if_pos hu] at h2
      injection h2 with he
      rw [← he]
      decide
    · rw [if_neg hu] at h2
      cases h2
  have h := fetch_failures_recorded (fun _ => none)
    (fun u => if u = "a" then .error "boom" else .ok "html") [] []
    [⟨"a", "A", none⟩, ⟨"b", "B", none⟩] (by decide) hmsg
  refine ⟨?_, ?_⟩
  · rw [h.1]
    decide
  · rw [h.2.1]
    decide
